import Mathlib

/-
Verification development for the mcqgen repository.

The repository is a small Python pipeline:
  src/mcqgenerator/utils.py        : read_file, get_table_data
  src/mcqgenerator/MCQGenerator.py : extract_json, generate_mcqs

External library boundaries (json.loads, pypdf PdfReader, the LangChain
chain invocation, os.getenv) are modelled as explicit parameters of the
embedded functions; everything the repository itself computes is embedded
faithfully from the source.
-/

namespace Mcqgen

/-- Python values produced by json.loads.  JSON numbers are modelled as
integers; no claim depends on fractional values. -/
inductive Json where
  | null
  | bool (b : Bool)
  | num (n : Int)
  | str (s : String)
  | arr (elems : List Json)
  | obj (entries : List (String × Json))

mutual

/-- Python repr of a json.loads value (str and repr agree on containers,
numbers, booleans and None; repr quotes strings). -/
def pyRepr : Json → String
  | Json.null => "None"
  | Json.bool b => if b then "True" else "False"
  | Json.num n => toString n
  | Json.str s => "\x27" ++ s ++ "\x27"
  | Json.arr xs => "[" ++ pyReprList xs ++ "]"
  | Json.obj kvs => "\x7b" ++ pyReprKVs kvs ++ "\x7d"

/-- Comma separated repr of list elements. -/
def pyReprList : List Json → String
  | [] => ""
  | [x] => pyRepr x
  | x :: xs => pyRepr x ++ ", " ++ pyReprList xs

/-- Comma separated repr of dict entries. -/
def pyReprKVs : List (String × Json) → String
  | [] => ""
  | [(k, v)] => "\x27" ++ k ++ "\x27: " ++ pyRepr v
  | (k, v) :: xs => "\x27" ++ k ++ "\x27: " ++ pyRepr v ++ ", " ++ pyReprKVs xs

end

/-- Python str conversion as used by an f-string: identity on strings,
repr on everything else. -/
def pyStr (v : Json) : String :=
  match v with
  | Json.str s => s
  | v => pyRepr v

/-- Python dict.get(key, default) on a json.loads object, whose entries
are kept in insertion order. -/
def dictGet : List (String × Json) → String → Json → Json
  | [], _, d => d
  | (k1, v) :: rest, k, d => if k1 = k then v else dictGet rest k d

/-- Python membership test: whether the dict has the given key. -/
def hasKey : List (String × Json) → String → Bool
  | [], _ => false
  | (k1, _) :: rest, k => k1 == k || hasKey rest k

/-- One display row built by get_table_data: a dict literal with exactly
the keys MCQ, Choices and Correct. -/
structure Row where
  MCQ : Json
  Choices : String
  Correct : Json

/-- Return value of get_table_data: either the accumulated list of rows,
or the Python constant False returned from the except branch. -/
inductive TableResult where
  | rows (l : List Row)
  | falseVal

/-- Whether a TableResult is a list of rows (as opposed to False). -/
def isRowsResult : TableResult → Bool
  | TableResult.rows _ => true
  | TableResult.falseVal => false

/-- Loop body of get_table_data for one dict value.  `none` models the
AttributeError raised when `value` is not a dict (value.get) or when its
options entry is not a dict (.items()). -/
def rowOf (value : Json) : Option Row :=
  match value with
  | Json.obj qkvs =>
    match dictGet qkvs "options" (Json.obj []) with
    | Json.obj opts =>
      some { MCQ := dictGet qkvs "mcq" (Json.str "")
           , Choices := String.intercalate ".||."
               (opts.map (fun p => p.1 ++ ") " ++ pyStr p.2))
           , Correct := dictGet qkvs "correct" (Json.str "") }
    | _ => none
  | _ => none

/-- Option-valued map: the whole list of results, or none as soon as one
element fails (the partially built list is discarded, as the except
branch discards quiz_table_data). -/
def mapOption (f : α → Option β) : List α → Option (List β)
  | [] => some []
  | x :: xs =>
    match f x, mapOption f xs with
    | some y, some ys => some (y :: ys)
    | _, _ => none

/-- The body of get_table_data after json.loads succeeded: iterate over
the parsed value.  A non-dict top level value raises inside the try
(quiz_data.items()) and is caught, giving False. -/
def project_quiz (j : Json) : TableResult :=
  match j with
  | Json.obj entries =>
    match mapOption rowOf (entries.map Prod.snd) with
    | some rows => TableResult.rows rows
    | none => TableResult.falseVal
  | _ => TableResult.falseVal

/-- utils.get_table_data.  `parse` is the json.loads boundary: none models
a raised JSONDecodeError, which the except branch turns into False. -/
def get_table_data (parse : String → Option Json) (quiz_str : String) : TableResult :=
  match parse quiz_str with
  | none => TableResult.falseVal
  | some j => project_quiz j

/-- The error kinds of the pipeline, using the specification vocabulary
for the ValueError / wrapped Exception instances the code raises. -/
inductive Err where
  | unsupportedFormatError
  | extractionError (msg : String)
  | configurationError (path : String)
  | credentialError
  | backendError
  | noJsonFoundError
  | malformedJsonError
  | typeError

/-- Loop body of the PDF branch of read_file: text += extracted when the
page text is truthy (not None and not empty). -/
def pageStep (acc : String) (p : Option String) : String :=
  match p with
  | some t => if t = "" then acc else acc ++ t
  | none => acc

/-- Python str.lower, modelled character by character. -/
def pyLower (s : String) : String :=
  String.mk (s.data.map Char.toLower)

/-- Python str.endswith. -/
def pyEndsWith (s suffix : String) : Bool :=
  decide (suffix.data.length ≤ s.data.length) &&
    (s.data.drop (s.data.length - suffix.data.length) == suffix.data)

/-- utils.read_file.  `pdf` is the pypdf boundary for this path: the list
of per page extract_text results (none for a page with no text), or the
message of the exception raised while reading; `txt` is the content the
text branch reads. -/
def read_file (pdf : Except String (List (Option String))) (txt : String)
    (file_path : String) : Except Err String :=
  if pyEndsWith (pyLower file_path) ".pdf" then
    match pdf with
    | Except.ok pages => Except.ok (pages.foldl pageStep "")
    | Except.error e => Except.error (Err.extractionError ("Error reading PDF file: " ++ e))
  else if pyEndsWith (pyLower file_path) ".txt" then
    Except.ok txt
  else
    Except.error Err.unsupportedFormatError

/-- Index of the first opening brace, as re.search picks the leftmost
possible match start. -/
def firstBraceIdx : List Char → Option Nat
  | [] => none
  | c :: cs =>
    if c = '{' then some 0 else
      match firstBraceIdx cs with
      | some i => some (i + 1)
      | none => none

/-- Index of the last closing brace, as the greedy .* with DOTALL extends
the match to the last closing brace of the string. -/
def lastCloseIdx : List Char → Option Nat
  | [] => none
  | c :: cs =>
    match lastCloseIdx cs with
    | some j => some (j + 1)
    | none => if c = '}' then some 0 else none

/-- The substring matched by re.search of an opening brace, a greedy
DOTALL dot star, and a closing brace: from the first opening brace
through the last closing brace, when the latter comes after the former. -/
def spanMatch (s : String) : Option String :=
  match firstBraceIdx s.data, lastCloseIdx s.data with
  | some i, some j =>
    if i < j then some (String.mk ((s.data.drop i).take (j - i + 1))) else none
  | _, _ => none

/-- MCQGenerator.extract_json.  `parse` is the json.loads boundary; none
models a raised JSONDecodeError. -/
def extract_json (parse : String → Option Json) (text : String) : Except Err Json :=
  match spanMatch text with
  | none => Except.error Err.noJsonFoundError
  | some sub =>
    match parse sub with
    | none => Except.error Err.malformedJsonError
    | some j => Except.ok j

/-- Python falsiness of os.getenv output: None or the empty string. -/
def isFalsy : Option String → Bool
  | none => true
  | some s => s == ""

/-- MCQGenerator.generate_mcqs.  Boundaries: `parse` is json.loads;
`env` the value of os.getenv after load_dotenv; `respExists` and
`evalExists` the existence checks of Response.json and
Evaluation_response.json (their loaded contents only reach the prompt
text and are not needed further); `pdf` and `txt` feed read_file for the
input path; `client` is the combined LangChain chain, invoked with the
attempt index (the filled prompts are fixed for the whole invocation).
The second component counts chain invocations.  Token accounting from
the callback is vendor supplied passthrough and not modelled.  The call
get_table_data(json.dumps(final_output.get(final_quiz, given))) re-parses
the dump of a value json.loads produced, so it is modelled as projecting
that value directly. -/
def generate_mcqs
    (parse : String → Option Json)
    (env : Option String)
    (respExists evalExists : Bool)
    (pdf : Except String (List (Option String)))
    (txt : String)
    (input_file_path : String)
    (number : Nat) (subject tone : String)
    (client : Nat → Except String String) :
    Except Err (Json × TableResult) × Nat :=
  if isFalsy env then
    (Except.error Err.credentialError, 0)
  else if respExists = false then
    (Except.error (Err.configurationError "Response.json"), 0)
  else if evalExists = false then
    (Except.error (Err.configurationError "Evaluation_response.json"), 0)
  else
    match read_file pdf txt input_file_path with
    | Except.error e => (Except.error e, 0)
    | Except.ok _text =>
      match client 0 with
      | Except.error _msg => (Except.error Err.backendError, 1)
      | Except.ok final_output_text =>
        match extract_json parse final_output_text with
        | Except.error e => (Except.error e, 1)
        | Except.ok final_output =>
          match final_output with
          | Json.obj kvs =>
            (Except.ok (Json.obj kvs, project_quiz (dictGet kvs "final_quiz" (Json.obj []))), 1)
          | _ => (Except.error Err.typeError, 1)

/-- The per page concatenation the pdf branch produces, written as a
direct recursion: pages in order, pages with no extractable text skipped,
and no separator inserted between pages. -/
def concatPagesSpec : List (Option String) → String
  | [] => ""
  | some t :: ps => if t = "" then concatPagesSpec ps else t ++ concatPagesSpec ps
  | none :: ps => concatPagesSpec ps

/-- A completion client that fails on its first call and would succeed on
a second one, from the retry property of the specification. -/
def c1_client : Nat → Except String String :=
  fun k => if k = 0 then Except.error "boom" else Except.ok "ok"

/-- A model reply whose JSON span is the whole string. -/
def c2_reply : String := "\x7bgap\x7d"

/-- A well formed question keyed 1. -/
def c2_q1 : Json :=
  Json.obj [("mcq", Json.str "Q1"),
    ("options", Json.obj [("a", Json.str "A"), ("b", Json.str "B"),
      ("c", Json.str "C"), ("d", Json.str "D")]),
    ("correct", Json.str "a")]

/-- A well formed question keyed 3, leaving a gap at key 2. -/
def c2_q3 : Json :=
  Json.obj [("mcq", Json.str "Q3"),
    ("options", Json.obj [("a", Json.str "A"), ("b", Json.str "B"),
      ("c", Json.str "C"), ("d", Json.str "D")]),
    ("correct", Json.str "c")]

/-- The parsed evaluation output whose final quiz has keys 1 and 3 only. -/
def c2_out : Json := Json.obj [("final_quiz", Json.obj [("1", c2_q1), ("3", c2_q3)])]

/-- json.loads boundary returning the gapped quiz for the model reply. -/
def c2_parse : String → Option Json :=
  fun s => if s = c2_reply then some c2_out else none

/-- Client that always returns the gapped reply. -/
def c2_client : Nat → Except String String := fun _ => Except.ok c2_reply

/-- Row projected from the question keyed 1. -/
def c2_row1 : Row :=
  { MCQ := Json.str "Q1", Choices := "a) A.||.b) B.||.c) C.||.d) D", Correct := Json.str "a" }

/-- Row projected from the question keyed 3. -/
def c2_row3 : Row :=
  { MCQ := Json.str "Q3", Choices := "a) A.||.b) B.||.c) C.||.d) D", Correct := Json.str "c" }

/-- Options dict of the round trip example of the specification. -/
def c6_opts : List (String × Json) :=
  [("a", Json.str "X"), ("b", Json.str "Y"), ("c", Json.str "Z"), ("d", Json.str "W")]

/-- Entries of the round trip example question. -/
def c6_qkvs : List (String × Json) :=
  [("mcq", Json.str "Which one"), ("options", Json.obj c6_opts), ("correct", Json.str "b")]

/-- The round trip example question. -/
def c6_q : Json := Json.obj c6_qkvs

/-- json.loads boundary returning the one question quiz. -/
def c6_parse : String → Option Json := fun _ => some (Json.obj [("1", c6_q)])

/-- Expected row of the round trip example. -/
def c6_row : Row :=
  { MCQ := Json.str "Which one", Choices := "a) X.||.b) Y.||.c) Z.||.d) W",
    Correct := Json.str "b" }

/-- A question with options and correct but no mcq entry. -/
def c10_q1 : Json :=
  Json.obj [("options", Json.obj [("a", Json.str "A")]), ("correct", Json.str "a")]

/-- A question with only an mcq entry. -/
def c10_q2 : Json := Json.obj [("mcq", Json.str "M2")]

/-- A quiz whose questions have missing fields. -/
def c10_entries : List (String × Json) := [("1", c10_q1), ("2", c10_q2)]

/-- json.loads boundary returning that quiz. -/
def c10_parse : String → Option Json := fun _ => some (Json.obj c10_entries)

/-- Expected row for the question without mcq. -/
def c10_row1 : Row := { MCQ := Json.str "", Choices := "a) A", Correct := Json.str "a" }

/-- Expected row for the question with only mcq. -/
def c10_row2 : Row := { MCQ := Json.str "M2", Choices := "", Correct := Json.str "" }

/-- json.loads boundary returning a mapping whose value is not a dict. -/
def c10x_parse : String → Option Json :=
  fun _ => some (Json.obj [("1", Json.str "hello")])

/-- A reply with text around a brace bounded span. -/
def c4_str : String := "a\x7bb\x7dc"

/-- The span of that reply, from its first opening brace through its
last closing brace. -/
def c4_sub : String := "\x7bb\x7d"

/-- json.loads boundary accepting exactly that span. -/
def c4_parse : String → Option Json :=
  fun t => if t = c4_sub then some (Json.obj []) else none

/-- A clean JSON object string. -/
def c5_s : String := "\x7bk\x7d"

/-- json.loads boundary accepting exactly the clean object string. -/
def c5_parse : String → Option Json :=
  fun t => if t = c5_s then some (Json.num 1) else none

end Mcqgen

namespace Mcqgen

/-- Left fold of the page loop equals the accumulator followed by the
direct recursion. -/
theorem foldl_pageStep (pages : List (Option String)) :
    ∀ acc : String, pages.foldl pageStep acc = acc ++ concatPagesSpec pages := by
  induction pages with
  | nil => intro acc; simp [concatPagesSpec]
  | cons p ps ih =>
    intro acc
    cases p with
    | none => simp [List.foldl, pageStep, concatPagesSpec, ih]
    | some t =>
      by_cases ht : t = ""
      · simp [List.foldl, pageStep, concatPagesSpec, ht, ih]
      · simp [List.foldl, pageStep, concatPagesSpec, ht, ih, String.append_assoc]

/-- C9: when no credential is configured (os.getenv yields None or the
empty string), generate_mcqs fails with the credential error and the
completion client is never invoked (zero attempts). -/
theorem c9_credential (parse : String → Option Json) (env : Option String)
    (re ee : Bool) (pdf : Except String (List (Option String))) (txt path : String)
    (n : Nat) (subj tone : String) (client : Nat → Except String String)
    (h : isFalsy env = true) :
    generate_mcqs parse env re ee pdf txt path n subj tone client =
      (Except.error Err.credentialError, 0) := by
  unfold generate_mcqs
  simp [h]

/-- Witness for C9 at a concrete invocation with no credential. -/
theorem c9_credential_witness :
    generate_mcqs (fun _ => none) none true true (Except.ok []) "" "a.txt" 5 "s" "t"
      (fun _ => Except.ok "") = (Except.error Err.credentialError, 0) :=
  c9_credential (fun _ => none) none true true (Except.ok []) "" "a.txt" 5 "s" "t"
    (fun _ => Except.ok "") rfl

/-- C8: a path whose lowercased name ends in neither .pdf nor .txt makes
read_file fail with the unsupported format error, and a pipeline run on
such a path never invokes the completion client. -/
theorem c8_unsupported (parse : String → Option Json) (env : Option String)
    (re ee : Bool) (pdf : Except String (List (Option String))) (txt path : String)
    (n : Nat) (subj tone : String) (client : Nat → Except String String)
    (h1 : pyEndsWith (pyLower path) ".pdf" = false)
    (h2 : pyEndsWith (pyLower path) ".txt" = false) :
    read_file pdf txt path = Except.error Err.unsupportedFormatError ∧
    (generate_mcqs parse env re ee pdf txt path n subj tone client).2 = 0 := by
  have hrf : read_file pdf txt path = Except.error Err.unsupportedFormatError := by
    unfold read_file
    simp [h1, h2]
  refine ⟨hrf, ?_⟩
  unfold generate_mcqs
  by_cases g1 : isFalsy env = true
  · simp [g1]
  · by_cases g2 : re = false
    · simp [g1, g2]
    · by_cases g3 : ee = false
      · simp [g1, g2, g3]
      · simp [g1, g2, g3, hrf]

/-- Witness for C8 at a .docx path. -/
theorem c8_unsupported_witness :
    read_file (Except.ok []) "" "report.docx" = Except.error Err.unsupportedFormatError ∧
    (generate_mcqs (fun _ => none) (some "sk") true true (Except.ok []) "" "report.docx"
      5 "s" "t" (fun _ => Except.ok "")).2 = 0 :=
  c8_unsupported (fun _ => none) (some "sk") true true (Except.ok []) "" "report.docx"
    5 "s" "t" (fun _ => Except.ok "") (by decide) (by decide)

/-- C3 counterexample: on input that json.loads rejects, get_table_data
returns the Python constant False, which is not an empty row sequence. -/
theorem c3_counterexample :
    get_table_data (fun _ => none) "oops" = TableResult.falseVal ∧
    TableResult.falseVal ≠ TableResult.rows [] :=
  ⟨rfl, by intro h; exact TableResult.noConfusion h⟩

/-- C3 amended: get_table_data is total (its result is always either a
row list or False) and on input json.loads rejects it returns False, the
falsy sentinel of the except branch, not an empty row sequence. -/
theorem c3_false_on_malformed (parse : String → Option Json) (s : String) :
    (get_table_data parse s = TableResult.falseVal ∨
      ∃ rows, get_table_data parse s = TableResult.rows rows) ∧
    (parse s = none → get_table_data parse s = TableResult.falseVal) := by
  constructor
  · cases hg : get_table_data parse s with
    | rows l => exact Or.inr ⟨l, rfl⟩
    | falseVal => exact Or.inl rfl
  · intro h
    unfold get_table_data
    simp [h]

/-- Witness for C3 at a concrete malformed input. -/
theorem c3_false_on_malformed_witness :
    get_table_data (fun _ => none) "bad" = TableResult.falseVal :=
  (c3_false_on_malformed (fun _ => none) "bad").2 rfl

/-- C7 counterexample: two pages extracting A and B concatenate to AB,
with no newline separator between the pages. -/
theorem c7_counterexample :
    read_file (Except.ok [some "A", some "B"]) "" "doc.pdf" = Except.ok "AB" ∧
    ("AB" : String) ≠ "A" ++ "\n" ++ "B" :=
  ⟨rfl, by decide⟩

/-- C7 amended: for a .pdf path the per page texts are concatenated
directly in page order with no separator, skipping pages that yield no
extractable text, and a failure of the pdf library is wrapped in the
extraction error. -/
theorem c7_pdf_concat (pdf : Except String (List (Option String))) (txt path : String)
    (h : pyEndsWith (pyLower path) ".pdf" = true) :
    (∀ pages, pdf = Except.ok pages →
      read_file pdf txt path = Except.ok (concatPagesSpec pages)) ∧
    (∀ msg, pdf = Except.error msg →
      read_file pdf txt path =
        Except.error (Err.extractionError ("Error reading PDF file: " ++ msg))) := by
  constructor
  · intro pages hp
    subst hp
    unfold read_file
    simp [h, foldl_pageStep]
  · intro msg hp
    subst hp
    unfold read_file
    simp [h]

/-- Witness for C7 amended: a run with an empty page and a skipped page,
and a run where the pdf library fails. -/
theorem c7_pdf_concat_witness :
    read_file (Except.ok [some "A", none, some "", some "B"]) "t" "doc.pdf" =
      Except.ok "AB" ∧
    read_file (Except.error "broken xref") "t" "doc.pdf" =
      Except.error (Err.extractionError "Error reading PDF file: broken xref") := by
  constructor
  · exact (c7_pdf_concat (Except.ok [some "A", none, some "", some "B"]) "t" "doc.pdf"
      (by decide)).1 [some "A", none, some "", some "B"] rfl
  · exact (c7_pdf_concat (Except.error "broken xref") "t" "doc.pdf"
      (by decide)).2 "broken xref" rfl

/-- C1 counterexample: with a client that fails on the first call and
would succeed on a second one, the pipeline surfaces the backend error
after exactly one attempt; no second attempt is made and no wrapper
error with attempt count two is produced. -/
theorem c1_counterexample :
    generate_mcqs (fun _ => some (Json.obj [])) (some "sk-test") true true
      (Except.ok []) "hello" "notes.txt" 5 "Machine Learning" "educational" c1_client =
      (Except.error Err.backendError, 1) ∧
    (generate_mcqs (fun _ => some (Json.obj [])) (some "sk-test") true true
      (Except.ok []) "hello" "notes.txt" 5 "Machine Learning" "educational" c1_client).2 ≠ 2 :=
  ⟨rfl, by decide⟩

/-- C1 amended: generate_mcqs invokes the completion client at most once
per invocation, and a failure of that single call propagates immediately
as the backend error with attempt count one: there is no retry and no
terminal wrapper error. -/
theorem c1_single_attempt (parse : String → Option Json) (env : Option String)
    (re ee : Bool) (pdf : Except String (List (Option String))) (txt path : String)
    (n : Nat) (subj tone : String) (client : Nat → Except String String) :
    (generate_mcqs parse env re ee pdf txt path n subj tone client).2 ≤ 1 ∧
    (∀ k t msg, env = some k → ¬ k = "" → re = true → ee = true →
      read_file pdf txt path = Except.ok t → client 0 = Except.error msg →
      generate_mcqs parse env re ee pdf txt path n subj tone client =
        (Except.error Err.backendError, 1)) := by
  constructor
  · unfold generate_mcqs
    by_cases g1 : isFalsy env = true
    · simp [g1]
    · by_cases g2 : re = false
      · simp [g1, g2]
      · by_cases g3 : ee = false
        · simp [g1, g2, g3]
        · cases hr : read_file pdf txt path with
          | error e => simp [g1, g2, g3, hr]
          | ok t =>
            cases hc : client 0 with
            | error m => simp [g1, g2, g3, hr, hc]
            | ok ft =>
              cases he : extract_json parse ft with
              | error e2 => simp [g1, g2, g3, hr, hc, he]
              | ok fo => cases fo <;> simp [g1, g2, g3, hr, hc, he]
  · intro k t msg hk hke hre hee hrf hcl
    subst hk
    have henv : isFalsy (some k) = false := by simp [isFalsy, hke]
    unfold generate_mcqs
    simp [henv, hre, hee, hrf, hcl]

/-- Witness for C1 amended at a concrete failing client. -/
theorem c1_single_attempt_witness :
    generate_mcqs (fun _ => some (Json.obj [])) (some "sk") true true (Except.ok [])
      "hi" "b.txt" 5 "s" "t" c1_client = (Except.error Err.backendError, 1) :=
  (c1_single_attempt (fun _ => some (Json.obj [])) (some "sk") true true (Except.ok [])
    "hi" "b.txt" 5 "s" "t" c1_client).2 "sk" "hi" "boom" rfl (by decide) rfl rfl rfl rfl

/-- C2 counterexample: a reply whose final quiz has key set 1 and 3 for a
requested count of three is accepted end to end: the pipeline returns
success with two projected rows, and no schema validation error exists
anywhere in the code. -/
theorem c2_counterexample :
    generate_mcqs c2_parse (some "sk") true true (Except.ok []) "text" "doc.txt" 3
      "ML" "edu" c2_client =
      (Except.ok (c2_out, TableResult.rows [c2_row1, c2_row3]), 1) := rfl

/-- C2 amended: the pipeline performs no schema validation at all: any
reply whose extracted span parses to a JSON object is accepted as is,
regardless of its key set or question shape and independently of the
requested count, and the final quiz value is projected to rows without
any check. -/
theorem c2_no_validation (parse : String → Option Json) (env : Option String)
    (re ee : Bool) (pdf : Except String (List (Option String))) (txt path : String)
    (n : Nat) (subj tone : String) (client : Nat → Except String String)
    (k t reply : String) (kvs : List (String × Json))
    (hk : env = some k) (hke : ¬ k = "") (hre : re = true) (hee : ee = true)
    (hrf : read_file pdf txt path = Except.ok t)
    (hcl : client 0 = Except.ok reply)
    (hex : extract_json parse reply = Except.ok (Json.obj kvs)) :
    generate_mcqs parse env re ee pdf txt path n subj tone client =
      (Except.ok (Json.obj kvs, project_quiz (dictGet kvs "final_quiz" (Json.obj []))), 1) := by
  subst hk
  have henv : isFalsy (some k) = false := by simp [isFalsy, hke]
  unfold generate_mcqs
  simp [henv, hre, hee, hrf, hcl, hex]

/-- An option valued map yielding some list determines the list index by
index. -/
theorem mapOption_eq_some {α β : Type} (f : α → Option β) :
    ∀ (xs : List α) (ys : List β), mapOption f xs = some ys →
      ys.length = xs.length ∧
      ∀ i (h1 : i < xs.length) (h2 : i < ys.length),
        f (xs.get ⟨i, h1⟩) = some (ys.get ⟨i, h2⟩) := by
  intro xs
  induction xs with
  | nil =>
    intro ys h
    simp [mapOption] at h
    subst h
    refine ⟨rfl, ?_⟩
    intro i h1 h2
    exact absurd h1 (by simp)
  | cons x xs ih =>
    intro ys h
    unfold mapOption at h
    cases hfx : f x with
    | none => rw [hfx] at h; simp at h
    | some y =>
      cases hmx : mapOption f xs with
      | none => rw [hfx, hmx] at h; simp at h
      | some ys2 =>
        rw [hfx, hmx] at h
        simp at h
        subst h
        obtain ⟨hlen, hidx⟩ := ih ys2 hmx
        refine ⟨by simp [hlen], ?_⟩
        intro i h1 h2
        cases i with
        | zero => simpa using hfx
        | succ i2 =>
          exact hidx i2 (Nat.lt_of_succ_lt_succ h1) (Nat.lt_of_succ_lt_succ h2)

/-- If every element maps to some value, the whole list does. -/
theorem mapOption_isSome {α β : Type} (f : α → Option β) :
    ∀ xs : List α, (∀ x ∈ xs, (f x).isSome = true) → ∃ ys, mapOption f xs = some ys := by
  intro xs
  induction xs with
  | nil => intro _; exact ⟨[], rfl⟩
  | cons x xs ih =>
    intro h
    have hx : (f x).isSome = true := h x (List.mem_cons_self x xs)
    obtain ⟨y, hy⟩ := Option.isSome_iff_exists.mp hx
    obtain ⟨ys, hys⟩ := ih (fun a ha => h a (List.mem_cons_of_mem x ha))
    exact ⟨y :: ys, by simp [mapOption, hy, hys]⟩

/-- dict.get falls back to the default when the key is absent. -/
theorem dictGet_of_not_hasKey :
    ∀ (es : List (String × Json)) (k : String) (d : Json),
      hasKey es k = false → dictGet es k d = d := by
  intro es
  induction es with
  | nil => intro k d _; rfl
  | cons p rest ih =>
    intro k d h
    cases p with
    | mk k1 v =>
      unfold hasKey at h
      simp at h
      unfold dictGet
      rw [if_neg h.1]
      exact ih k d h.2

/-- Witness for C2 amended at the gapped concrete quiz. -/
theorem c2_no_validation_witness :
    generate_mcqs c2_parse (some "sk") true true (Except.ok []) "t2" "quiz.txt" 3
      "ML" "edu" c2_client =
      (Except.ok (c2_out, TableResult.rows [c2_row1, c2_row3]), 1) :=
  c2_no_validation c2_parse (some "sk") true true (Except.ok []) "t2" "quiz.txt" 3
    "ML" "edu" c2_client "sk" "t2" c2_reply
    [("final_quiz", Json.obj [("1", c2_q1), ("3", c2_q3)])]
    rfl (by decide) rfl rfl rfl rfl rfl

/-- C6: whenever get_table_data produces rows, the row at any index whose
question is a dict with a dict of options has as its choices string the
option texts rendered label, closing parenthesis, space, text, joined by
the fixed delimiter, and as its correct field the correct entry of the
question. -/
theorem c6_projection (parse : String → Option Json) (s : String)
    (kvs : List (String × Json)) (h1 : parse s = some (Json.obj kvs))
    (rows : List Row) (h2 : get_table_data parse s = TableResult.rows rows)
    (i : Nat) (hik : i < kvs.length) (hir : i < rows.length)
    (qkvs opts : List (String × Json))
    (hq : (kvs.get ⟨i, hik⟩).2 = Json.obj qkvs)
    (ho : dictGet qkvs "options" (Json.obj []) = Json.obj opts) :
    (rows.get ⟨i, hir⟩).Choices =
      String.intercalate ".||." (opts.map (fun p => p.1 ++ ") " ++ pyStr p.2)) ∧
    (rows.get ⟨i, hir⟩).Correct = dictGet qkvs "correct" (Json.str "") := by
  simp only [get_table_data, h1, project_quiz] at h2
  cases hmo : mapOption rowOf (kvs.map Prod.snd) with
  | none => rw [hmo] at h2; simp at h2
  | some rs =>
    rw [hmo] at h2
    simp at h2
    subst h2
    obtain ⟨hlen, hidx⟩ := mapOption_eq_some rowOf (kvs.map Prod.snd) rs hmo
    have hlt : i < (kvs.map Prod.snd).length := by simpa using hik
    have h3 := hidx i hlt hir
    rw [List.get_map] at h3
    rw [hq] at h3
    simp only [rowOf, ho, Option.some.injEq] at h3
    constructor
    · rw [← h3]
    · rw [← h3]

/-- Witness for C6 at the round trip example of the specification. -/
theorem c6_projection_witness :
    get_table_data c6_parse "r" = TableResult.rows [c6_row] ∧
    c6_row.Choices = "a) X.||.b) Y.||.c) Z.||.d) W" ∧
    c6_row.Correct = Json.str "b" := by
  refine ⟨rfl, ?_, ?_⟩
  · exact (c6_projection c6_parse "r" [("1", c6_q)] rfl [c6_row] rfl 0 (by decide)
      (by decide) c6_qkvs c6_opts rfl rfl).1
  · exact (c6_projection c6_parse "r" [("1", c6_q)] rfl [c6_row] rfl 0 (by decide)
      (by decide) c6_qkvs c6_opts rfl rfl).2

/-- C10 counterexample: a string parsing to a JSON mapping whose value is
not a dict does not give one row per key: the loop raises an
AttributeError that the except branch turns into False. -/
theorem c10_counterexample :
    get_table_data c10x_parse "quiz" = TableResult.falseVal ∧
    isRowsResult (get_table_data c10x_parse "quiz") = false :=
  ⟨rfl, rfl⟩

/-- C10 amended: when every value of the parsed mapping is a dict whose
options entry, if present, is itself a dict, get_table_data produces one
row per top level key in iteration order, and a question without an mcq
or correct entry gets the empty string in that row field while a question
without an options entry gets an empty choices string. -/
theorem c10_rows_and_defaults (parse : String → Option Json) (s : String)
    (entries : List (String × Json)) (rows : List Row)
    (h1 : parse s = some (Json.obj entries))
    (h2 : mapOption rowOf (entries.map Prod.snd) = some rows) :
    get_table_data parse s = TableResult.rows rows ∧
    rows.length = entries.length ∧
    (∀ i (hi : i < entries.length) (hr : i < rows.length),
      rowOf ((entries.get ⟨i, hi⟩).2) = some (rows.get ⟨i, hr⟩)) ∧
    (∀ qkvs r, rowOf (Json.obj qkvs) = some r →
      (hasKey qkvs "mcq" = false → r.MCQ = Json.str "") ∧
      (hasKey qkvs "correct" = false → r.Correct = Json.str "") ∧
      (hasKey qkvs "options" = false → r.Choices = "")) := by
  obtain ⟨hlen, hidx⟩ := mapOption_eq_some rowOf (entries.map Prod.snd) rows h2
  refine ⟨?_, by simpa using hlen, ?_, ?_⟩
  · simp only [get_table_data, h1, project_quiz, h2]
  · intro i hi hr
    have hlt : i < (entries.map Prod.snd).length := by simpa using hi
    have h3 := hidx i hlt hr
    rw [List.get_map] at h3
    exact h3
  · intro qkvs r hrow
    cases ho : dictGet qkvs "options" (Json.obj []) with
    | obj opts =>
      simp only [rowOf, ho, Option.some.injEq] at hrow
      refine ⟨?_, ?_, ?_⟩
      · intro hm
        rw [← hrow]
        exact dictGet_of_not_hasKey qkvs "mcq" (Json.str "") hm
      · intro hc
        rw [← hrow]
        exact dictGet_of_not_hasKey qkvs "correct" (Json.str "") hc
      · intro hopt
        have hdef := dictGet_of_not_hasKey qkvs "options" (Json.obj []) hopt
        rw [hdef] at ho
        have hop : opts = [] := by cases ho; rfl
        subst hop
        rw [← hrow]
        rfl
    | null => simp only [rowOf, ho] at hrow; exact Option.noConfusion hrow
    | bool b => simp only [rowOf, ho] at hrow; exact Option.noConfusion hrow
    | num n => simp only [rowOf, ho] at hrow; exact Option.noConfusion hrow
    | str t => simp only [rowOf, ho] at hrow; exact Option.noConfusion hrow
    | arr xs => simp only [rowOf, ho] at hrow; exact Option.noConfusion hrow

/-- Witness for C10 amended: a quiz with a question missing mcq and a
question missing options and correct. -/
theorem c10_rows_and_defaults_witness :
    get_table_data c10_parse "q" = TableResult.rows [c10_row1, c10_row2] ∧
    (2 : Nat) = c10_entries.length ∧
    c10_row1.MCQ = Json.str "" ∧
    c10_row2.Choices = "" ∧
    c10_row2.Correct = Json.str "" := by
  have h := c10_rows_and_defaults c10_parse "q" c10_entries [c10_row1, c10_row2] rfl rfl
  refine ⟨h.1, h.2.1, ?_, ?_, ?_⟩
  · exact (h.2.2.2 [("options", Json.obj [("a", Json.str "A")]), ("correct", Json.str "a")]
      c10_row1 rfl).1 rfl
  · exact (h.2.2.2 [("mcq", Json.str "M2")] c10_row2 rfl).2.2 rfl
  · exact (h.2.2.2 [("mcq", Json.str "M2")] c10_row2 rfl).2.1 rfl

/-- A first brace index points at an opening brace. -/
theorem fb_sound : ∀ (cs : List Char) (i : Nat),
    firstBraceIdx cs = some i → cs.get? i = some '{' := by
  intro cs
  induction cs with
  | nil => intro i h; exact Option.noConfusion h
  | cons c cs ih =>
    intro i h
    unfold firstBraceIdx at h
    by_cases hc : c = '{'
    · rw [if_pos hc] at h
      have h0 := Option.some.inj h
      subst h0
      simp [hc]
    · rw [if_neg hc] at h
      cases hf : firstBraceIdx cs with
      | none => rw [hf] at h; exact Option.noConfusion h
      | some i2 =>
        rw [hf] at h
        have h1 := Option.some.inj h
        subst h1
        simpa using ih i2 hf

/-- The first brace index is minimal among opening brace positions. -/
theorem fb_min : ∀ (cs : List Char) (i : Nat), firstBraceIdx cs = some i →
    ∀ k, cs.get? k = some '{' → i ≤ k := by
  intro cs
  induction cs with
  | nil => intro i h; exact Option.noConfusion h
  | cons c cs ih =>
    intro i h k hk
    unfold firstBraceIdx at h
    by_cases hc : c = '{'
    · rw [if_pos hc] at h
      have h0 := Option.some.inj h
      omega
    · rw [if_neg hc] at h
      cases hf : firstBraceIdx cs with
      | none => rw [hf] at h; exact Option.noConfusion h
      | some i2 =>
        rw [hf] at h
        have h1 := Option.some.inj h
        cases k with
        | zero =>
          simp at hk
          exact absurd hk hc
        | succ k2 =>
          rw [List.get?_cons_succ] at hk
          have := ih i2 hf k2 hk
          omega

/-- A list containing an opening brace has a first brace index. -/
theorem fb_exists : ∀ (cs : List Char) (k : Nat),
    cs.get? k = some '{' → ∃ i, firstBraceIdx cs = some i := by
  intro cs
  induction cs with
  | nil => intro k h; simp at h
  | cons c cs ih =>
    intro k h
    unfold firstBraceIdx
    by_cases hc : c = '{'
    · exact ⟨0, by rw [if_pos hc]⟩
    · rw [if_neg hc]
      cases k with
      | zero => simp at h; exact absurd h hc
      | succ k2 =>
        rw [List.get?_cons_succ] at h
        obtain ⟨i2, hi2⟩ := ih k2 h
        exact ⟨i2 + 1, by rw [hi2]⟩

/-- A list without a last close index has no closing brace at all. -/
theorem lc_none_sound : ∀ (cs : List Char), lastCloseIdx cs = none →
    ∀ k, cs.get? k ≠ some '}' := by
  intro cs
  induction cs with
  | nil => intro _ k; simp
  | cons c cs ih =>
    intro h k
    unfold lastCloseIdx at h
    cases hl : lastCloseIdx cs with
    | some j => rw [hl] at h; exact Option.noConfusion h
    | none =>
      rw [hl] at h
      by_cases hc : c = '}'
      · rw [if_pos hc] at h; exact Option.noConfusion h
      · cases k with
        | zero => simp [hc]
        | succ k2 => simpa using ih hl k2

/-- A last close index points at a closing brace. -/
theorem lc_sound : ∀ (cs : List Char) (j : Nat),
    lastCloseIdx cs = some j → cs.get? j = some '}' := by
  intro cs
  induction cs with
  | nil => intro j h; exact Option.noConfusion h
  | cons c cs ih =>
    intro j h
    unfold lastCloseIdx at h
    cases hl : lastCloseIdx cs with
    | some j2 =>
      rw [hl] at h
      have h1 := Option.some.inj h
      subst h1
      simpa using ih j2 hl
    | none =>
      rw [hl] at h
      by_cases hc : c = '}'
      · rw [if_pos hc] at h
        have h0 := Option.some.inj h
        subst h0
        simp [hc]
      · rw [if_neg hc] at h; exact Option.noConfusion h

/-- The last close index is maximal among closing brace positions. -/
theorem lc_max : ∀ (cs : List Char) (j : Nat), lastCloseIdx cs = some j →
    ∀ k, cs.get? k = some '}' → k ≤ j := by
  intro cs
  induction cs with
  | nil => intro j h; exact Option.noConfusion h
  | cons c cs ih =>
    intro j h k hk
    unfold lastCloseIdx at h
    cases hl : lastCloseIdx cs with
    | some j2 =>
      rw [hl] at h
      have h1 := Option.some.inj h
      cases k with
      | zero => omega
      | succ k2 =>
        rw [List.get?_cons_succ] at hk
        have := ih j2 hl k2 hk
        omega
    | none =>
      rw [hl] at h
      by_cases hc : c = '}'
      · rw [if_pos hc] at h
        have h0 := Option.some.inj h
        cases k with
        | zero => omega
        | succ k2 =>
          rw [List.get?_cons_succ] at hk
          exact absurd hk (lc_none_sound cs hl k2)
      · rw [if_neg hc] at h; exact Option.noConfusion h

/-- A list containing a closing brace has a last close index. -/
theorem lc_exists : ∀ (cs : List Char) (k : Nat),
    cs.get? k = some '}' → ∃ j, lastCloseIdx cs = some j := by
  intro cs
  induction cs with
  | nil => intro k h; simp at h
  | cons c cs ih =>
    intro k h
    unfold lastCloseIdx
    cases hl : lastCloseIdx cs with
    | some j2 => simp only [hl]; exact ⟨j2 + 1, rfl⟩
    | none =>
      simp only [hl]
      cases k with
      | zero =>
        simp at h
        exact ⟨0, by rw [if_pos h]⟩
      | succ k2 =>
        rw [List.get?_cons_succ] at h
        obtain ⟨j2, hj2⟩ := ih k2 h
        rw [hj2] at hl
        exact Option.noConfusion hl

/-- spanMatch at known first and last brace indices. -/
theorem spanMatch_eq (s : String) (i j : Nat)
    (hfi : firstBraceIdx s.data = some i) (hlj : lastCloseIdx s.data = some j)
    (hij : i < j) :
    spanMatch s = some (String.mk ((s.data.drop i).take (j - i + 1))) := by
  unfold spanMatch
  simp only [hfi, hlj]
  rw [if_pos hij]

/-- The span is determined by any index pair that is a first opening
brace and a last closing brace. -/
theorem spanMatch_unique (s : String) (i j : Nat)
    (hi : s.data.get? i = some '{')
    (himin : ∀ k, k < i → s.data.get? k ≠ some '{')
    (hj : s.data.get? j = some '}')
    (hjmax : ∀ k, k < s.data.length → j < k → s.data.get? k ≠ some '}')
    (hij : i < j) :
    spanMatch s = some (String.mk ((s.data.drop i).take (j - i + 1))) := by
  obtain ⟨i0, hf0⟩ := fb_exists s.data i hi
  have hi0le : i0 ≤ i := fb_min s.data i0 hf0 i hi
  have hi0eq : i0 = i := by
    rcases Nat.lt_or_ge i0 i with hlt | hge
    · exact absurd (fb_sound s.data i0 hf0) (himin i0 hlt)
    · omega
  subst hi0eq
  obtain ⟨j0, hl0⟩ := lc_exists s.data j hj
  have hj0ge : j ≤ j0 := lc_max s.data j0 hl0 j hj
  have hj0len : j0 < s.data.length := by
    rcases Nat.lt_or_ge j0 s.data.length with hlt | hge
    · exact hlt
    · have hn : s.data.get? j0 = none := List.get?_eq_none.mpr hge
      rw [lc_sound s.data j0 hl0] at hn
      exact Option.noConfusion hn
  have hj0eq : j0 = j := by
    rcases Nat.lt_or_ge j j0 with hlt | hge
    · exact absurd (lc_sound s.data j0 hl0) (hjmax j0 hj0len hlt)
    · omega
  subst hj0eq
  exact spanMatch_eq s i0 j0 hf0 hl0 hij

/-- C4: extract_json fails with the no JSON found error exactly when the
reply has no opening brace followed by a closing brace, and when the
first opening brace at index i precedes the last closing brace at index
j, the substring from i through j is the one handed to json.loads: a
parse failure on it gives the malformed JSON error and a parse success
returns exactly its value. -/
theorem c4_extract_json (parse : String → Option Json) (s : String) :
    (extract_json parse s = Except.error Err.noJsonFoundError ↔
      ¬ ∃ i j, i < j ∧ s.data.get? i = some '{' ∧ s.data.get? j = some '}') ∧
    (∀ i j, s.data.get? i = some '{' → (∀ k, k < i → s.data.get? k ≠ some '{') →
      s.data.get? j = some '}' →
      (∀ k, k < s.data.length → j < k → s.data.get? k ≠ some '}') →
      i < j →
      (parse (String.mk ((s.data.drop i).take (j - i + 1))) = none →
        extract_json parse s = Except.error Err.malformedJsonError) ∧
      (∀ v, parse (String.mk ((s.data.drop i).take (j - i + 1))) = some v →
        extract_json parse s = Except.ok v)) := by
  constructor
  · constructor
    · intro hEq
      intro hex
      obtain ⟨i, j, hij, hi, hj⟩ := hex
      obtain ⟨i0, hf0⟩ := fb_exists s.data i hi
      obtain ⟨j0, hl0⟩ := lc_exists s.data j hj
      have hi0 : i0 ≤ i := fb_min s.data i0 hf0 i hi
      have hj0 : j ≤ j0 := lc_max s.data j0 hl0 j hj
      have hspan := spanMatch_eq s i0 j0 hf0 hl0 (by omega)
      unfold extract_json at hEq
      rw [hspan] at hEq
      cases hp : parse (String.mk ((s.data.drop i0).take (j0 - i0 + 1))) with
      | none =>
        simp only [hp] at hEq
        exact Err.noConfusion (Except.error.inj hEq)
      | some v =>
        simp only [hp] at hEq
        exact Except.noConfusion hEq
    · intro hno
      have hnone : spanMatch s = none := by
        unfold spanMatch
        cases hf : firstBraceIdx s.data with
        | none =>
          cases hl : lastCloseIdx s.data <;> rfl
        | some i0 =>
          cases hl : lastCloseIdx s.data with
          | none => rfl
          | some j0 =>
            simp only []
            rw [if_neg ?_]
            intro hij
            exact hno ⟨i0, j0, hij, fb_sound s.data i0 hf, lc_sound s.data j0 hl⟩
      unfold extract_json
      rw [hnone]
  · intro i j hi himin hj hjmax hij
    have hspan := spanMatch_unique s i j hi himin hj hjmax hij
    constructor
    · intro hpn
      unfold extract_json
      rw [hspan]
      simp only [hpn]
    · intro v hpv
      unfold extract_json
      rw [hspan]
      simp only [hpv]

/-- Witness for C4 at a reply with surrounding text: the parsed substring
is exactly the brace bounded span. -/
theorem c4_extract_json_witness :
    extract_json c4_parse c4_str = Except.ok (Json.obj []) :=
  ((c4_extract_json c4_parse c4_str).2 1 3 (by decide)
    (by decide)
    (by decide)
    (by decide)
    (by decide)).2 (Json.obj []) rfl

/-- C5: extract_json is insensitive to brace free text around a clean
JSON object string: for a string starting with an opening brace and
ending with a closing brace that json.loads accepts, surrounding it with
any prefix and suffix containing no braces yields the same parse result
as the string alone. -/
theorem c5_idempotent (parse : String → Option Json) (p s q : String) (j : Json)
    (h1 : s.data.head? = some '{') (h2 : s.data.getLast? = some '}')
    (hp1 : '{' ∉ p.data) (hp2 : '}' ∉ p.data)
    (hq1 : '{' ∉ q.data) (hq2 : '}' ∉ q.data)
    (hj : parse s = some j) :
    extract_json parse (p ++ s ++ q) = Except.ok j ∧
    extract_json parse s = Except.ok j := by
  have hne : s.data ≠ [] := by
    intro h
    rw [h] at h1
    exact Option.noConfusion h1
  have hlast : s.data.getLast hne = '}' := by
    have h3 := List.getLast?_eq_getLast s.data hne
    rw [h3] at h2
    exact Option.some.inj h2
  have hsplit : s.data.dropLast ++ ['}'] = s.data := by
    rw [← hlast]
    exact List.dropLast_append_getLast hne
  have hhead : ∃ t, s.data = '{' :: t := by
    cases hsd : s.data with
    | nil => exact absurd hsd hne
    | cons c t =>
      rw [hsd] at h1
      simp at h1
      exact ⟨t, by rw [h1]⟩
  obtain ⟨t, hst⟩ := hhead
  have hlen : s.data.length = s.data.dropLast.length + 1 := by
    conv_lhs => rw [← hsplit]
    simp
  have hpos : 0 < s.data.dropLast.length := by
    rcases Nat.eq_zero_or_pos s.data.dropLast.length with hz | hgt
    · exfalso
      have hdl : s.data.dropLast = [] := List.eq_nil_of_length_eq_zero hz
      rw [hdl] at hsplit
      simp at hsplit
      rw [← hsplit] at hst
      injection hst with hc _
      exact absurd hc (by decide)
    · exact hgt
  have hs_at0 : s.data.get? 0 = some '{' := by rw [hst]; rfl
  have hs_atj : s.data.get? s.data.dropLast.length = some '}' := by
    have h3 : (s.data.dropLast ++ ['}']).get? s.data.dropLast.length = some '}' := by
      rw [List.get?_append_right (Nat.le_refl _)]
      simp
    rw [hsplit] at h3
    exact h3
  have hext_s : extract_json parse s = Except.ok j := by
    have hspan := spanMatch_unique s 0 s.data.dropLast.length hs_at0
      (fun k hk => absurd hk (Nat.not_lt_zero k))
      hs_atj
      (fun k hklen hkgt => absurd hkgt (by omega))
      hpos
    have hslice : (s.data.drop 0).take (s.data.dropLast.length - 0 + 1) = s.data := by
      rw [List.drop_zero]
      have h4 : s.data.dropLast.length - 0 + 1 = s.data.length := by omega
      rw [h4, List.take_length]
    rw [hslice] at hspan
    have hj2 : parse (String.mk s.data) = some j := hj
    unfold extract_json
    rw [hspan]
    simp only [hj2]
  have hwdata : (p ++ s ++ q).data = p.data ++ (s.data ++ q.data) := by
    rw [String.data_append, String.data_append, List.append_assoc]
  have hw_at : (p ++ s ++ q).data.get? p.data.length = some '{' := by
    rw [hwdata, List.get?_append_right (Nat.le_refl _), Nat.sub_self, hst]
    rfl
  have hw_min : ∀ k, k < p.data.length → (p ++ s ++ q).data.get? k ≠ some '{' := by
    intro k hk hcon
    rw [hwdata, List.get?_append hk] at hcon
    exact hp1 (List.get?_mem hcon)
  have hw_atj : (p ++ s ++ q).data.get?
      (p.data.length + s.data.dropLast.length) = some '}' := by
    rw [hwdata]
    rw [List.get?_append_right
      (by omega : p.data.length ≤ p.data.length + s.data.dropLast.length)]
    have h5 : p.data.length + s.data.dropLast.length - p.data.length =
        s.data.dropLast.length := by omega
    rw [h5]
    rw [List.get?_append (by omega : s.data.dropLast.length < s.data.length)]
    exact hs_atj
  have hw_max : ∀ k, k < (p ++ s ++ q).data.length →
      p.data.length + s.data.dropLast.length < k →
      (p ++ s ++ q).data.get? k ≠ some '}' := by
    intro k hklen hkgt hcon
    rw [hwdata] at hcon
    rw [List.get?_append_right (by omega : p.data.length ≤ k)] at hcon
    rw [List.get?_append_right
      (by omega : s.data.length ≤ k - p.data.length)] at hcon
    exact hq2 (List.get?_mem hcon)
  have hspanw := spanMatch_unique (p ++ s ++ q) p.data.length
    (p.data.length + s.data.dropLast.length) hw_at hw_min hw_atj hw_max (by omega)
  have hslicew : ((p ++ s ++ q).data.drop p.data.length).take
      (p.data.length + s.data.dropLast.length - p.data.length + 1) = s.data := by
    rw [hwdata, List.drop_left]
    have h6 : p.data.length + s.data.dropLast.length - p.data.length + 1 =
        s.data.length := by omega
    rw [h6]
    exact List.take_left s.data q.data
  rw [hslicew] at hspanw
  have hextw : extract_json parse (p ++ s ++ q) = Except.ok j := by
    have hj2 : parse (String.mk s.data) = some j := hj
    unfold extract_json
    rw [hspanw]
    simp only [hj2]
  exact ⟨hextw, hext_s⟩

/-- Witness for C5 at a clean object string with brace free prefix and
suffix. -/
theorem c5_idempotent_witness :
    extract_json c5_parse ("x " ++ c5_s ++ " y") = Except.ok (Json.num 1) ∧
    extract_json c5_parse c5_s = Except.ok (Json.num 1) :=
  c5_idempotent c5_parse "x " c5_s " y" (Json.num 1)
    (by decide) (by decide) (by decide) (by decide) (by decide) (by decide) rfl

end Mcqgen
